import Mathlib

/-!
Verification of the `visage` column-level SQL lineage extractor
(`src/main.py`, class `Lineage`) against its natural-language specification.

The development shallowly embeds the program:

* the syntax trees produced by the external Syntax Tree Provider (the
  `sqlglot` library) are modelled by the inductive type `SqlNode`, exposing
  exactly the structure the extractor reads (table references with
  catalog/db/name/alias, column references with optional qualifier,
  projection aliases, equality nodes, join clauses with an optional ON
  condition, CTEs, and select bodies);
* `find_all`-style recursive enumeration is modelled by the `findTables`,
  `findColumns`, `findJoins`, `findEqs` and `findCTEs` traversals, walking
  a node's arguments in the provider's argument order (projections, FROM,
  joins, and the WITH clause last, since the provider attaches the WITH
  clause after the select body is built);
* Python dictionaries (`alias_map`, `self.tables`) are modelled as
  insertion-ordered association lists with in-place value update, Python
  sets as insertion-ordered duplicate-free lists, and Python string
  truthiness as comparison with the empty string;
* the mutating methods `Lineage._analyze_select` and `Lineage.parse_sql`
  become state-passing functions over the `Lineage` structure;
* the exporter `generate_interactive_html` and the traversal `showLineage`
  of the generated page are modelled by `exportGraph` and `computeImpact`.
-/

namespace Visage

/-- A resolved table reference as read off an `exp.Table` node:
catalog, db, name and alias (empty string when absent). -/
structure TableRef where
  catalog : String
  db : String
  nm : String
  aliasNm : String
deriving Repr, DecidableEq

/-- Syntax tree nodes of the external provider (sqlglot expressions), as far
as the extractor inspects them.  `joinE` carries the joined table and the ON
condition (a list that is empty or a singleton, mirroring the optional
`args["on"]`); `selectE` carries the CTE list, the projection list, the FROM
table list (empty or a singleton) and the join list. -/
inductive SqlNode where
  | column (tbl nm : String)
  | tableE (catalog db nm aliasNm : String)
  | aliasE (body : SqlNode) (a : String)
  | eqE (l r : SqlNode)
  | andE (l r : SqlNode)
  | gtE (l r : SqlNode)
  | litE (v : String)
  | funcE (nm : String) (args : List SqlNode)
  | joinE (tbl : SqlNode) (onC : List SqlNode)
  | cteE (nm : String) (body : SqlNode)
  | selectE (ctes projs froms joins : List SqlNode)

mutual

/-- Enumeration of all `exp.Table` nodes in a subtree (`find_all(exp.Table)`),
in the provider's argument order; the WITH clause is walked last. -/
def findTables : SqlNode → List TableRef
  | .column _ _ => []
  | .tableE c d n a => [⟨c, d, n, a⟩]
  | .aliasE b _ => findTables b
  | .eqE l r => findTables l ++ findTables r
  | .andE l r => findTables l ++ findTables r
  | .gtE l r => findTables l ++ findTables r
  | .litE _ => []
  | .funcE _ args => findTablesL args
  | .joinE t onC => findTables t ++ findTablesL onC
  | .cteE _ b => findTables b
  | .selectE ctes projs froms joins =>
      findTablesL projs ++ findTablesL froms ++ findTablesL joins ++ findTablesL ctes

/-- List version of `findTables`. -/
def findTablesL : List SqlNode → List TableRef
  | [] => []
  | e :: es => findTables e ++ findTablesL es

end

mutual

/-- Enumeration of all `exp.Column` nodes in a subtree
(`find_all(exp.Column)`), as (qualifier, column-name) pairs;
the qualifier is the empty string for an unqualified reference. -/
def findColumns : SqlNode → List (String × String)
  | .column t n => [(t, n)]
  | .tableE _ _ _ _ => []
  | .aliasE b _ => findColumns b
  | .eqE l r => findColumns l ++ findColumns r
  | .andE l r => findColumns l ++ findColumns r
  | .gtE l r => findColumns l ++ findColumns r
  | .litE _ => []
  | .funcE _ args => findColumnsL args
  | .joinE t onC => findColumns t ++ findColumnsL onC
  | .cteE _ b => findColumns b
  | .selectE ctes projs froms joins =>
      findColumnsL projs ++ findColumnsL froms ++ findColumnsL joins ++ findColumnsL ctes

/-- List version of `findColumns`. -/
def findColumnsL : List SqlNode → List (String × String)
  | [] => []
  | e :: es => findColumns e ++ findColumnsL es

end

mutual

/-- Enumeration of all `exp.Join` nodes in a subtree (`find_all(exp.Join)`). -/
def findJoins : SqlNode → List SqlNode
  | .column _ _ => []
  | .tableE _ _ _ _ => []
  | .aliasE b _ => findJoins b
  | .eqE l r => findJoins l ++ findJoins r
  | .andE l r => findJoins l ++ findJoins r
  | .gtE l r => findJoins l ++ findJoins r
  | .litE _ => []
  | .funcE _ args => findJoinsL args
  | .joinE t onC => .joinE t onC :: (findJoins t ++ findJoinsL onC)
  | .cteE _ b => findJoins b
  | .selectE ctes projs froms joins =>
      findJoinsL projs ++ findJoinsL froms ++ findJoinsL joins ++ findJoinsL ctes

/-- List version of `findJoins`. -/
def findJoinsL : List SqlNode → List SqlNode
  | [] => []
  | e :: es => findJoins e ++ findJoinsL es

end

mutual

/-- Enumeration of all `exp.EQ` nodes in a subtree (`find_all(exp.EQ)`),
as (left operand, right operand) pairs. -/
def findEqs : SqlNode → List (SqlNode × SqlNode)
  | .column _ _ => []
  | .tableE _ _ _ _ => []
  | .aliasE b _ => findEqs b
  | .eqE l r => (l, r) :: (findEqs l ++ findEqs r)
  | .andE l r => findEqs l ++ findEqs r
  | .gtE l r => findEqs l ++ findEqs r
  | .litE _ => []
  | .funcE _ args => findEqsL args
  | .joinE t onC => findEqs t ++ findEqsL onC
  | .cteE _ b => findEqs b
  | .selectE ctes projs froms joins =>
      findEqsL projs ++ findEqsL froms ++ findEqsL joins ++ findEqsL ctes

/-- List version of `findEqs`. -/
def findEqsL : List SqlNode → List (SqlNode × SqlNode)
  | [] => []
  | e :: es => findEqs e ++ findEqsL es

end

mutual

/-- Enumeration of all `exp.CTE` nodes in a subtree (`find_all(exp.CTE)`),
as (alias, body) pairs. -/
def findCTEs : SqlNode → List (String × SqlNode)
  | .column _ _ => []
  | .tableE _ _ _ _ => []
  | .aliasE b _ => findCTEs b
  | .eqE l r => findCTEs l ++ findCTEs r
  | .andE l r => findCTEs l ++ findCTEs r
  | .gtE l r => findCTEs l ++ findCTEs r
  | .litE _ => []
  | .funcE _ args => findCTEsL args
  | .joinE t onC => findCTEs t ++ findCTEsL onC
  | .cteE n b => (n, b) :: findCTEs b
  | .selectE ctes projs froms joins =>
      findCTEsL projs ++ findCTEsL froms ++ findCTEsL joins ++ findCTEsL ctes

/-- List version of `findCTEs`. -/
def findCTEsL : List SqlNode → List (String × SqlNode)
  | [] => []
  | e :: es => findCTEs e ++ findCTEsL es

end

/-- The direct projection list of a select body (`select_expression.expressions`). -/
def projections : SqlNode → List SqlNode
  | .selectE _ projs _ _ => projs
  | _ => []

/-- Statements as returned by the provider: `exp.Insert`, `exp.Create`
(each with its target table node and its select body) and `exp.Select`. -/
inductive Stmt where
  | insertS (target : SqlNode) (expression : SqlNode)
  | createS (target : SqlNode) (expression : SqlNode)
  | selectS (body : SqlNode)

/-- All CTE nodes of a statement (`parsed.find_all(exp.CTE)`). -/
def stmtFindCTEs : Stmt → List (String × SqlNode)
  | .insertS t e => findCTEs t ++ findCTEs e
  | .createS t e => findCTEs t ++ findCTEs e
  | .selectS b => findCTEs b

/-- Whether the statement contains a `WITH` clause (`parsed.find(exp.With)`);
a WITH node is present exactly when some CTE node is. -/
def stmtHasWith (s : Stmt) : Bool :=
  !(stmtFindCTEs s).isEmpty

/-- The accumulated provenance graph, mirroring the mutable attributes of the
`Lineage` class: the table catalog (insertion-ordered map from table identity
to its set of observed columns), the flow-edge list, the join-edge list, the
defined-table set and the CTE-name set. -/
structure Lineage where
  tables : List (String × List String)
  flow_edges : List (String × String × String × String)
  join_edges : List (String × String × String × String)
  defined_tables : List String
  ctes : List String
deriving Repr, DecidableEq

/-- The empty graph (`Lineage.__init__`). -/
def emptyLineage : Lineage := ⟨[], [], [], [], []⟩

/-- Set insertion for a Python `set` modelled as a duplicate-free list. -/
def setAdd (xs : List String) (x : String) : List String :=
  if xs.contains x then xs else xs ++ [x]

/-- Ensure a key is present in the table catalog with an empty column set
(`if name not in self.tables: self.tables[name] = set()`, and the bare
defaultdict access `self.tables[name]`). -/
def tablesEnsure (ts : List (String × List String)) (k : String) :
    List (String × List String) :=
  if ts.any (fun p => p.1 == k) then ts else ts ++ [(k, [])]

/-- Add a column to a table entry, creating the entry when absent
(`self.tables[name].add(col)` guarded by the ensure above). -/
def tablesAddCol (ts : List (String × List String)) (k c : String) :
    List (String × List String) :=
  if ts.any (fun p => p.1 == k) then
    ts.map (fun p => if p.1 == k then (p.1, setAdd p.2 c) else p)
  else ts ++ [(k, [c])]

/-- Column set recorded for a table identity (empty when the table is absent). -/
def tablesGet (ts : List (String × List String)) (k : String) : List String :=
  match ts.find? (fun p => p.1 == k) with
  | some p => p.2
  | none => []

/-- Python `str.lower()`, characterwise (the identifiers involved are
ASCII, where the two case foldings agree). -/
def pyLower (s : String) : String :=
  String.mk (s.data.map Char.toLower)

/-- Normalization `Lineage._get_full_table_name`: join the non-empty
qualifier parts with dots and case-fold; an all-empty reference becomes
the placeholder identity. -/
def get_full_table_name (t : TableRef) : String :=
  let parts := [t.catalog, t.db, t.nm].filter (fun p => p ≠ "")
  let full := String.intercalate "." parts
  if full = "" then "unknown_table" else pyLower full

/-- Output column name of a projection (`Lineage._get_col_name`): the explicit
alias when present, else the bare name of a simple column reference, else the
sentinel for computed expressions. -/
def get_col_name : SqlNode → String
  | .aliasE _ a => if a = "" then "calc_field" else a
  | .column _ n => n
  | _ => "calc_field"

/-- Python-dict update `alias_map[alias] = full_name`: in-place value update
when the key exists, append otherwise. -/
def amSet (m : List (String × String)) (k v : String) : List (String × String) :=
  if m.any (fun p => p.1 == k) then
    m.map (fun p => if p.1 == k then (p.1, v) else p)
  else m ++ [(k, v)]

/-- Python-dict lookup with default `alias_map.get(k, d)`. -/
def amGet (m : List (String × String)) (k d : String) : String :=
  match m.find? (fun p => p.1 == k) with
  | some p => p.2
  | none => d

/-- First key of the alias map (`list(alias_map.keys())[0]`). -/
def amFirstKey (m : List (String × String)) : String :=
  match m with
  | [] => ""
  | p :: _ => p.1

/-- Alias-map key of a table reference
(`table.alias if table.alias else table.name`). -/
def tableAliasKey (t : TableRef) : String :=
  if t.aliasNm ≠ "" then t.aliasNm else t.nm

/-- One alias-map assignment of `_analyze_select` step 1:
`alias_map[alias or name] = full_name`. -/
def amStep (m : List (String × String)) (t : TableRef) : List (String × String) :=
  amSet m (tableAliasKey t) (get_full_table_name t)

/-- Alias-map construction of `_analyze_select` step 1: fold the assignment
over every table reference found anywhere in the scope. -/
def build_alias_map (sel : SqlNode) : List (String × String) :=
  (findTables sel).foldl amStep []

/-- Source-table resolution shared by steps 2 and 3 of `_analyze_select`:
an empty qualifier falls back to the first alias-map key when the map is
non-empty, then the (possibly substituted) qualifier is looked up with
itself as the default. -/
def resolveRef (am : List (String × String)) (tbl : String) : String :=
  let a := if tbl = "" ∧ am ≠ [] then amFirstKey am else tbl
  amGet am a a

/-- Step 1 table registration of `_analyze_select`: every referenced table
identity gets a (possibly empty) catalog entry. -/
def registerTables (ts : List (String × List String)) (refs : List TableRef) :
    List (String × List String) :=
  refs.foldl (fun ts r => tablesEnsure ts (get_full_table_name r)) ts

/-- Handling of one nested column reference inside a projection (the inner
loop of `_analyze_select` step 2): resolve the source table and, when the
resolution is non-empty, register the source column and append one flow
edge. -/
def flowStep (am : List (String × String)) (tgt tcol : String)
    (st : Lineage) (r : String × String) : Lineage :=
  let real := resolveRef am r.1
  if real ≠ "" then
    { st with
        tables := tablesAddCol st.tables real r.2,
        flow_edges := st.flow_edges ++ [(real, r.2, tgt, tcol)] }
  else st

/-- Step 2 of `_analyze_select` (data flow): for each projection, register the
target column under the target table, then run `flowStep` over every column
reference nested anywhere inside the projection. -/
def mapDataFlow (st : Lineage) (am : List (String × String))
    (projs : List SqlNode) (tgt : String) : Lineage :=
  projs.foldl
    (fun st e =>
      let tcol := get_col_name e
      (findColumns e).foldl (flowStep am tgt tcol)
        { st with tables := tablesAddCol st.tables tgt tcol })
    st

/-- Operand inspection `extract_full_ref` inside step 3 of `_analyze_select`:
a simple column reference resolves to its (table, column) pair, anything else
yields nothing. -/
def extract_full_ref (am : List (String × String)) :
    SqlNode → Option (String × String)
  | .column t c => some (resolveRef am t, c)
  | _ => none

/-- Handling of one equality node inside an ON condition (the inner loop of
`_analyze_select` step 3): when both operands are column references with
non-empty resolved tables, register both columns and append one join edge. -/
def joinEqStep (am : List (String × String)) (st : Lineage)
    (lr : SqlNode × SqlNode) : Lineage :=
  match extract_full_ref am lr.1, extract_full_ref am lr.2 with
  | some (lt, lc), some (rt, rc) =>
      if lt ≠ "" ∧ rt ≠ "" then
        { st with
            tables := tablesAddCol (tablesAddCol st.tables lt lc) rt rc,
            join_edges := st.join_edges ++ [(lt, lc, rt, rc)] }
      else st
  | _, _ => st

/-- Step 3 of `_analyze_select` (join keys): for each join clause with an ON
condition, run `joinEqStep` over every equality node found anywhere in the
condition subtree. -/
def mapJoins (st : Lineage) (am : List (String × String))
    (joins : List SqlNode) : Lineage :=
  joins.foldl
    (fun st j =>
      match j with
      | .joinE _ onC => onC.foldl (fun st oc => (findEqs oc).foldl (joinEqStep am) st) st
      | _ => st)
    st

/-- The per-scope analysis `Lineage._analyze_select`: default the target name,
build the alias map, register every referenced table, map the data flow of
the projections, then map the join keys. -/
def analyze_select (st : Lineage) (sel : SqlNode) (tgt0 : String) : Lineage :=
  let tgt := if tgt0 = "" then "Unknown_Target" else tgt0
  let am := build_alias_map sel
  let st := { st with tables := registerTables st.tables (findTables sel) }
  let st := mapDataFlow st am (projections sel) tgt
  mapJoins st am (findJoins sel)

/-- Target identity of an INSERT/CREATE statement
(`self._get_full_table_name(parsed.this)`). -/
def stmtTargetName : SqlNode → String
  | .tableE c d n a => get_full_table_name ⟨c, d, n, a⟩
  | _ => "Unknown"

/-- The end-to-end INSERT scenario text of the spec. -/
def c1Sql : String :=
  "INSERT INTO sales_summary SELECT o.id AS order_id, c.name AS customer FROM orders o JOIN customers c ON o.cust_id = c.id"

/-- Statement tree of `c1Sql` as produced by the provider: an INSERT whose
target is the table node for sales_summary and whose body selects two aliased
columns from orders (alias o) joined to customers (alias c) on an equality. -/
def c1Stmt : Stmt :=
  .insertS (.tableE "" "" "sales_summary" "")
    (.selectE []
      [.aliasE (.column "o" "id") "order_id",
       .aliasE (.column "c" "name") "customer"]
      [.tableE "" "" "orders" "o"]
      [.joinE (.tableE "" "" "customers" "c")
        [.eqE (.column "o" "cust_id") (.column "c" "id")]])

/-- The CTE-propagation scenario text of the spec. -/
def c4Sql : String := "WITH c AS (SELECT x FROM t1) SELECT c.x FROM c"

/-- Body of the CTE in `c4Sql`: SELECT x FROM t1. -/
def c4CteBody : SqlNode :=
  .selectE [] [.column "" "x"] [.tableE "" "" "t1" ""] []

/-- Full select tree of `c4Sql`: the WITH clause holds one CTE named c over
t1, and the main body selects c.x from c. -/
def c4Main : SqlNode :=
  .selectE [.cteE "c" c4CteBody] [.column "c" "x"] [.tableE "" "" "c" ""] []

/-- Statement tree of `c4Sql`. -/
def c4Stmt : Stmt := .selectS c4Main

/-- A second valid statement for the batch-robustness scenario. -/
def v2Sql : String := "SELECT a.x AS y FROM t1 a"

/-- Statement tree of `v2Sql`. -/
def v2Stmt : Stmt :=
  .selectS (.selectE [] [.aliasE (.column "a" "x") "y"] [.tableE "" "" "t1" "a"] [])

/-- Modelled from the spec: the external Syntax Tree Provider (`sqlglot.parse_one`,
an out-of-scope collaborator) which, per the spec, given SQL text returns a typed
statement tree or fails with a parse error.  It is specified here on the concrete
statement texts the claims exercise; any other text (in particular the malformed
text of the batch scenario) fails to parse. -/
def parse_one (sql_code : String) : Except String Stmt :=
  if sql_code = c1Sql then .ok c1Stmt
  else if sql_code = c4Sql then .ok c4Stmt
  else if sql_code = v2Sql then .ok v2Stmt
  else .error "ParseError"

/-- The per-statement entry point `Lineage.parse_sql`: a declared (truthy)
output name is case-folded and registered as a defined table and a table
entry before parsing; a parse failure is caught and leaves the rest of the
state untouched; otherwise the CTE pass runs first (registering each CTE
alias and analyzing its body), then the main select body is analyzed against
the statement's target identity. -/
def parse_sql (st : Lineage) (sql_code : String)
    (output_table_name : Option String) : Lineage :=
  let nameOpt : Option String :=
    match output_table_name with
    | some n => if n = "" then none else some (pyLower n)
    | none => none
  let st :=
    match nameOpt with
    | some n =>
        { st with
            defined_tables := setAdd st.defined_tables n,
            tables := tablesEnsure st.tables n }
    | none => st
  match parse_one sql_code with
  | .error _ => st
  | .ok parsed =>
    let st :=
      if stmtHasWith parsed then
        (stmtFindCTEs parsed).foldl
          (fun st c =>
            let cte_name := if c.1 = "" then "CTE" else c.1
            analyze_select { st with ctes := setAdd st.ctes cte_name } c.2 cte_name)
          st
      else st
    match parsed with
    | .insertS tgtNode expr =>
        analyze_select st expr
          (match nameOpt with | some n => n | none => stmtTargetName tgtNode)
    | .createS tgtNode expr =>
        analyze_select st expr
          (match nameOpt with | some n => n | none => stmtTargetName tgtNode)
    | .selectS body =>
        analyze_select st body
          (match nameOpt with | some n => n | none => "FINAL_OUTPUT")

/-- Python `Lineage._clean_id`: every dot and space replaced by an
underscore; an empty name becomes the placeholder.  (The two single-character
`str.replace` calls of the source act characterwise.) -/
def clean_id (name : String) : String :=
  if name = "" then "Unknown"
  else String.mk (name.data.map (fun ch => if ch = '.' ∨ ch = ' ' then '_' else ch))

/-- Exported identifier of a column node in `generate_interactive_html`:
the cleaned table id and the cleaned column name joined by an underscore. -/
def colId (tbl col : String) : String :=
  clean_id tbl ++ "_" ++ clean_id col

/-- The flat node/edge payload built by `Lineage.generate_interactive_html`:
table container node ids, column child nodes as (id, parent-id) pairs, and
the flow and join edges as (source-id, target-id) pairs. -/
structure CyGraph where
  tableIds : List String
  colNodes : List (String × String)
  flowPairs : List (String × String)
  joinPairs : List (String × String)
deriving Repr, DecidableEq

/-- Serialization of the provenance graph into the exported element list
(`generate_interactive_html`, element-building loops). -/
def exportGraph (st : Lineage) : CyGraph :=
  { tableIds := st.tables.map (fun p => clean_id p.1)
    colNodes :=
      (st.tables.map (fun p => p.2.map (fun c => (colId p.1 c, clean_id p.1)))).flatten
    flowPairs :=
      st.flow_edges.map (fun e => (colId e.1 e.2.1, colId e.2.2.1 e.2.2.2))
    joinPairs :=
      st.join_edges.map (fun e => (colId e.1 e.2.1, colId e.2.2.1 e.2.2.2)) }

/-- The name cleaning performed inline by the generated page's `showLineage`
(two global regex replaces; unlike `clean_id` there is no empty-name
placeholder). -/
def jsCleanName (s : String) : String :=
  String.mk (s.data.map (fun ch => if ch = '.' ∨ ch = ' ' then '_' else ch))

/-- One expansion step of the downstream traversal: keep the current node set
and add the target of every edge whose source is already in it (cytoscape
`successors()` follows edge direction). -/
def succStep (es : List (String × String)) (s : List String) : List String :=
  s ++ (es.filter (fun e => s.contains e.1)).map (fun e => e.2)

/-- One expansion step of the upstream traversal: keep the current node set
and add the source of every edge whose target is already in it (cytoscape
`predecessors()` follows edge direction backwards). -/
def predStep (es : List (String × String)) (s : List String) : List String :=
  s ++ (es.filter (fun e => s.contains e.2)).map (fun e => e.1)

/-- Downstream reachability closure: iterating the step once per edge and one
extra time reaches every node reachable along directed edge paths. -/
def succClosure (es : List (String × String)) (s : List String) : List String :=
  Nat.iterate (succStep es) (es.length + 1) s

/-- Upstream reachability closure, dual to `succClosure`. -/
def predClosure (es : List (String × String)) (s : List String) : List String :=
  Nat.iterate (predStep es) (es.length + 1) s

/-- Result of the impact traversal: the upstream column nodes and their owning
tables, and the downstream column nodes and their owning tables. -/
structure ImpactResult where
  upCols : List String
  upTables : List String
  downCols : List String
  downTables : List String
deriving Repr, DecidableEq

/-- Model of the generated page's `showLineage` impact traversal over the
exported elements: look the root table node up by its cleaned name; when
present, start from its child column nodes and accumulate the upstream
(respectively downstream) fixed-point closure over the directed flow and join
edges — the page's loop expands with cytoscape's transitive `predecessors()`
(`successors()`) until no new node appears, which reaches exactly the directed
reachability closure — and collect the owning tables of the reached columns
(`parents()`); when the root node is absent, no traversal runs and everything
stays empty. -/
def computeImpact (st : Lineage) (root : String) : ImpactResult :=
  let g := exportGraph st
  let es := g.flowPairs ++ g.joinPairs
  let cleanName := jsCleanName root
  if g.tableIds.contains cleanName then
    let startCols := (g.colNodes.filter (fun p => p.2 == cleanName)).map (fun p => p.1)
    let up := predClosure es startCols
    let down := succClosure es startCols
    { upCols := up
      upTables := ((g.colNodes.filter (fun p => up.contains p.1)).map (fun p => p.2)).dedup
      downCols := down
      downTables := ((g.colNodes.filter (fun p => down.contains p.1)).map (fun p => p.2)).dedup }
  else ⟨[], [], [], []⟩

/-- The malformed SQL text of the spec's batch-robustness scenario. -/
def badSql : String := "SELEC * FRM"

/-- Whether the provider rejects a text (`sqlglot.parse_one` raising). -/
def parseFails (sql_code : String) : Bool :=
  match parse_one sql_code with
  | .error _ => true
  | .ok _ => false

/-- A minimal scope with one join on an equality:
SELECT ... FROM a JOIN b ON a.x = b.y. -/
def joinScope : SqlNode :=
  .selectE [] [] [.tableE "" "" "a" ""]
    [.joinE (.tableE "" "" "b" "") [.eqE (.column "a" "x") (.column "b" "y")]]

/-- The graph extracted from `joinScope`: tables a and b, columns x and y,
and the single join edge (a, x, b, y). -/
def stJoin : Lineage := analyze_select emptyLineage joinScope "FINAL_OUTPUT"

/-- Scope referencing the dotted table a.b under alias t: SELECT t.c FROM a.b t. -/
def sel9a : SqlNode := .selectE [] [.column "t" "c"] [.tableE "" "a" "b" "t"] []

/-- Scope referencing the plain table a under alias s: SELECT s.b_c FROM a s. -/
def sel9b : SqlNode := .selectE [] [.column "s" "b_c"] [.tableE "" "" "a" "s"] []

/-- A graph holding both the entry (a.b, c) and the entry (a, b_c). -/
def st9 : Lineage :=
  analyze_select (analyze_select emptyLineage sel9a "out1") sel9b "out2"

/-- A scope with SELECT a.id FROM t1 a JOIN t2 b ON a.id = b.id AND p,
for a parameter predicate p conjoined to the equality. -/
def scope6 (p : SqlNode) : SqlNode :=
  .selectE [] [.column "a" "id"] [.tableE "" "" "t1" "a"]
    [.joinE (.tableE "" "" "t2" "b")
      [.andE (.eqE (.column "a" "id") (.column "b" "id")) p]]

/-- A scope whose join condition equates a column with a literal:
SELECT a.id FROM t1 a JOIN t2 b ON a.id = 5. -/
def scope6lit : SqlNode :=
  .selectE [] [.column "a" "id"] [.tableE "" "" "t1" "a"]
    [.joinE (.tableE "" "" "t2" "b") [.eqE (.column "a" "id") (.litE "5")]]

/-- A scope with no table references and one unqualified projection column:
SELECT x (no FROM clause). -/
def c10Sel : SqlNode := .selectE [] [.column "" "x"] [] []

/-- A graph whose only source table is named a_b (underscore in the name):
extracted from SELECT a_b.x FROM a_b.  Its table identities are a_b and
FINAL_OUTPUT; the identity a.b is absent, but a.b cleans to the present
node id a_b. -/
def stCollide : Lineage :=
  analyze_select emptyLineage
    (.selectE [] [.column "a_b" "x"] [.tableE "" "" "a_b" ""] []) "FINAL_OUTPUT"

/-- Membership in the list traversal is inherited from membership in an
element's traversal. -/
theorem mem_findColumnsL_of_mem {e : SqlNode} {l : List SqlNode} (he : e ∈ l)
    {r : String × String} (hr : r ∈ findColumns e) : r ∈ findColumnsL l := by
  induction l with
  | nil => exact absurd he (List.not_mem_nil e)
  | cons a as ih =>
      show r ∈ findColumns a ++ findColumnsL as
      cases he with
      | head => exact List.mem_append_left _ hr
      | tail _ h => exact List.mem_append_right _ (ih h)

/-- Every column reference inside a projection of a select body is among the
column references of the whole body. -/
theorem findColumns_of_projections {sel e : SqlNode} (he : e ∈ projections sel)
    {r : String × String} (hr : r ∈ findColumns e) : r ∈ findColumns sel := by
  cases sel with
  | selectE ctes projs froms joins =>
      show r ∈ findColumnsL projs ++ findColumnsL froms ++ findColumnsL joins ++ findColumnsL ctes
      exact List.mem_append_left _ (List.mem_append_left _ (List.mem_append_left _
        (mem_findColumnsL_of_mem he hr)))
  | column t n => exact absurd he (List.not_mem_nil e)
  | tableE c d n a => exact absurd he (List.not_mem_nil e)
  | aliasE b a => exact absurd he (List.not_mem_nil e)
  | eqE l r2 => exact absurd he (List.not_mem_nil e)
  | andE l r2 => exact absurd he (List.not_mem_nil e)
  | gtE l r2 => exact absurd he (List.not_mem_nil e)
  | litE v => exact absurd he (List.not_mem_nil e)
  | funcE n args => exact absurd he (List.not_mem_nil e)
  | joinE t onC => exact absurd he (List.not_mem_nil e)
  | cteE n b => exact absurd he (List.not_mem_nil e)

/-- A column-reference step never touches the join-edge list. -/
theorem flowStep_join_edges (am : List (String × String)) (tgt tcol : String)
    (st : Lineage) (r : String × String) :
    (flowStep am tgt tcol st r).join_edges = st.join_edges := by
  unfold flowStep
  dsimp only
  split <;> rfl

/-- Folding column-reference steps never touches the join-edge list. -/
theorem foldl_flowStep_join_edges (am : List (String × String)) (tgt tcol : String) :
    ∀ (l : List (String × String)) (st : Lineage),
      (l.foldl (flowStep am tgt tcol) st).join_edges = st.join_edges := by
  intro l
  induction l with
  | nil => intro st; rfl
  | cons a as ih =>
      intro st
      rw [List.foldl_cons, ih, flowStep_join_edges]

/-- The data-flow pass never touches the join-edge list. -/
theorem mapDataFlow_join_edges (am : List (String × String)) (tgt : String) :
    ∀ (projs : List SqlNode) (st : Lineage),
      (mapDataFlow st am projs tgt).join_edges = st.join_edges := by
  intro projs
  induction projs with
  | nil => intro st; rfl
  | cons e es ih =>
      intro st
      exact (ih _).trans (foldl_flowStep_join_edges am tgt (get_col_name e) (findColumns e) _)

/-- With an empty alias map, an unqualified column reference resolves to the
empty string and its step is a no-op. -/
theorem flowStep_empty_am (tgt tcol : String) (st : Lineage)
    {r : String × String} (hr : r.1 = "") : flowStep [] tgt tcol st r = st := by
  unfold flowStep resolveRef
  rw [hr]
  simp [amFirstKey, amGet]

/-- With an empty alias map, folding steps over unqualified references is the
identity. -/
theorem foldl_flowStep_empty_am (tgt tcol : String) :
    ∀ (l : List (String × String)) (st : Lineage), (∀ r ∈ l, r.1 = "") →
      l.foldl (flowStep [] tgt tcol) st = st := by
  intro l
  induction l with
  | nil => intro st _; rfl
  | cons a as ih =>
      intro st h
      rw [List.foldl_cons, flowStep_empty_am tgt tcol st (h a (List.mem_cons_self a as))]
      exact ih st (fun r hr => h r (List.mem_cons_of_mem a hr))

/-- With an empty alias map and only unqualified references, the data-flow
pass registers exactly the target columns and nothing else. -/
theorem mapDataFlow_empty_am (tgt : String) :
    ∀ (projs : List SqlNode) (st : Lineage),
      (∀ e ∈ projs, ∀ r ∈ findColumns e, r.1 = "") →
      mapDataFlow st [] projs tgt =
        { st with
            tables := List.foldl (fun ts e => tablesAddCol ts tgt (get_col_name e)) st.tables projs } := by
  intro projs
  induction projs with
  | nil => intro st _; rfl
  | cons e es ih =>
      intro st h
      have he := foldl_flowStep_empty_am tgt (get_col_name e) (findColumns e)
        { st with tables := tablesAddCol st.tables tgt (get_col_name e) }
        (h e (List.mem_cons_self e es))
      have hes := ih { st with tables := tablesAddCol st.tables tgt (get_col_name e) }
        (fun e2 h2 r hr => h e2 (List.mem_cons_of_mem e h2) r hr)
      calc mapDataFlow st [] (e :: es) tgt
          = mapDataFlow ((findColumns e).foldl (flowStep [] tgt (get_col_name e))
              { st with tables := tablesAddCol st.tables tgt (get_col_name e) }) [] es tgt := rfl
        _ = mapDataFlow { st with tables := tablesAddCol st.tables tgt (get_col_name e) } [] es tgt := by rw [he]
        _ = { st with
                tables := List.foldl (fun ts e2 => tablesAddCol ts tgt (get_col_name e2)) st.tables (e :: es) } := by
              rw [hes, List.foldl_cons]

/-- C1: for the INSERT scenario (no declared output name) the extraction
produces exactly the table entries sales_summary, orders and customers, the
two flow edges (orders,id)->(sales_summary,order_id) and
(customers,name)->(sales_summary,customer), and exactly one join edge
(orders,cust_id)-(customers,id). -/
theorem claim1_end_to_end_insert :
    (parse_sql emptyLineage c1Sql none).tables.map Prod.fst =
      ["orders", "customers", "sales_summary"] ∧
    (parse_sql emptyLineage c1Sql none).flow_edges =
      [("orders", "id", "sales_summary", "order_id"),
       ("customers", "name", "sales_summary", "customer")] ∧
    (parse_sql emptyLineage c1Sql none).join_edges =
      [("orders", "cust_id", "customers", "id")] :=
  ⟨rfl, rfl, rfl⟩

/-- C2: processing the batch [valid, malformed, valid2] leaves exactly the
contributions of the two valid statements: the malformed middle call is a
no-op (the state equals that of processing the two valid statements alone),
and the accumulated flow edges are precisely those of the two valid
statements. -/
theorem claim2_batch_robustness :
    parse_sql (parse_sql (parse_sql emptyLineage c1Sql none) badSql none) v2Sql none =
      parse_sql (parse_sql emptyLineage c1Sql none) v2Sql none ∧
    (parse_sql (parse_sql (parse_sql emptyLineage c1Sql none) badSql none) v2Sql none).flow_edges =
      [("orders", "id", "sales_summary", "order_id"),
       ("customers", "name", "sales_summary", "customer"),
       ("t1", "x", "FINAL_OUTPUT", "y")] :=
  ⟨rfl, rfl⟩

/-- C3 counterexample: the claim that a failing parse leaves the graph
unchanged even when a declared output name is supplied is false: for the
unparseable text with declared name T_Out, the call registers the table
entry t_out (and the defined-table name) although the text fails to parse. -/
theorem claim3_cex :
    parseFails badSql = true ∧
    parse_sql emptyLineage badSql (some "T_Out") ≠ emptyLineage ∧
    (parse_sql emptyLineage badSql (some "T_Out")).tables.map Prod.fst = ["t_out"] ∧
    (parse_sql emptyLineage badSql (some "T_Out")).defined_tables = ["t_out"] := by
  refine ⟨rfl, ?_, rfl, rfl⟩
  intro h
  have h2 := congrArg Lineage.defined_tables h
  rw [show (parse_sql emptyLineage badSql (some "T_Out")).defined_tables = ["t_out"] from rfl] at h2
  exact List.noConfusion h2

/-- C4: extracting the WITH scenario (no declared output name) yields the
flow edge (t1,x)->(c,x), then the flow edge (c,x)->(FINAL_OUTPUT,x), and
records c in the CTE set. -/
theorem claim4_cte_propagation :
    (parse_sql emptyLineage c4Sql none).flow_edges =
      [("t1", "x", "c", "x"), ("c", "x", "FINAL_OUTPUT", "x")] ∧
    (parse_sql emptyLineage c4Sql none).ctes = ["c"] :=
  ⟨rfl, rfl⟩

/-- C5 counterexample: for the WITH scenario, the alias map built for the
main select body has keys c and t1, although the statement with the CTE list
removed (the scope's own table references) yields only the key c: the table
reference t1, which occurs only inside the CTE body, leaks into the main
scope's alias map. -/
theorem claim5_cex :
    (build_alias_map c4Main).map Prod.fst = ["c", "t1"] ∧
    (build_alias_map
      (.selectE [] [.column "c" "x"] [.tableE "" "" "c" ""] [])).map Prod.fst = ["c"] :=
  ⟨rfl, rfl⟩

/-- C7 counterexample: in the graph holding the single join edge (a,x,b,y),
the column node of (b,y) is not in the upstream closure computed from table
a, and the column node of (a,x) is not in the downstream closure computed
from table b: the exported join edge is traversed directionally, not as
bidirectional adjacency. -/
theorem claim7_cex :
    ("a", "x", "b", "y") ∈ stJoin.join_edges ∧
    colId "b" "y" ∉ (computeImpact stJoin "a").upCols ∧
    colId "a" "x" ∉ (computeImpact stJoin "b").downCols := by
  refine ⟨List.Mem.head _, ?_, ?_⟩
  · show ("b_y" : String) ∉ (["a_x"] : List String)
    decide
  · show ("a_x" : String) ∉ (["b_y"] : List String)
    decide

/-- C9: the exported node-identifier mapping is not injective: the distinct
entries (a.b, c) and (a, b_c), both present in the graph st9, export the
same column-node identifier a_b_c with two different parent tables. -/
theorem claim9_id_collision :
    "c" ∈ tablesGet st9.tables "a.b" ∧
    "b_c" ∈ tablesGet st9.tables "a" ∧
    colId "a.b" "c" = colId "a" "b_c" ∧
    ("a.b", "c") ≠ (("a", "b_c") : String × String) ∧
    ((exportGraph st9).colNodes.filter (fun p => p.1 == "a_b_c")).map Prod.snd =
      ["a_b", "a"] := by
  refine ⟨List.Mem.head _, List.Mem.head _, rfl, ?_, rfl⟩
  intro h
  have h2 := congrArg (fun p => Prod.snd p) h
  exact absurd h2 (by simp)

/-- C3 amended: when the SQL text fails to parse, extraction is skipped and
the graph is unchanged when no output name was declared; when a (non-empty)
output name was declared with the failing text, exactly the pre-parse
registration survives: the case-folded name is added to the defined-table set
and as an (empty) table entry, and nothing else changes. -/
theorem claim3_amended (st : Lineage) (sql_code : String) (n : String)
    (hfail : parseFails sql_code = true) (hn : n ≠ "") :
    parse_sql st sql_code none = st ∧
    parse_sql st sql_code (some n) =
      { st with
          defined_tables := setAdd st.defined_tables (pyLower n),
          tables := tablesEnsure st.tables (pyLower n) } := by
  unfold parseFails at hfail
  cases hp : parse_one sql_code with
  | error e =>
      constructor
      · simp [parse_sql, hp]
      · simp [parse_sql, hp, hn]
  | ok v => rw [hp] at hfail; exact absurd hfail (by simp)

/-- C3 witness: the amended statement evaluated on the malformed batch text
with declared name T_Out. -/
theorem claim3_witness :
    parse_sql emptyLineage badSql none = emptyLineage ∧
    parse_sql emptyLineage badSql (some "T_Out") =
      { emptyLineage with
          defined_tables := setAdd emptyLineage.defined_tables (pyLower "T_Out"),
          tables := tablesEnsure emptyLineage.tables (pyLower "T_Out") } :=
  claim3_amended emptyLineage badSql "T_Out" rfl (fun h => List.noConfusion (congrArg String.data h))

/-- C8 counterexample: a root identity absent from the graph does not always
yield empty closures: the identity a.b is not among stCollide's table
identities, but showLineage cleans the root name before the node lookup,
a.b cleans to the present node id a_b, and the traversal returns that
table's non-empty closures (its column a_b_x upstream, and downstream its
column together with FINAL_OUTPUT's). -/
theorem claim8_cex :
    "a.b" ∉ stCollide.tables.map Prod.fst ∧
    (computeImpact stCollide "a.b").upCols = ["a_b_x"] ∧
    (computeImpact stCollide "a.b").upTables = ["a_b"] ∧
    (computeImpact stCollide "a.b").downTables = ["a_b", "FINAL_OUTPUT"] := by
  refine ⟨?_, rfl, rfl, rfl⟩
  show ("a.b" : String) ∉ (["a_b", "FINAL_OUTPUT"] : List String)
  decide

/-- C8 amended: requesting the impact traversal for a root whose cleaned
name (dots and spaces replaced by underscores) matches no exported
table-node id yields empty upstream and downstream closures (both columns
and tables), and the model is a total function (no error); mere absence of
the root identity from the graph is not enough, since its cleaned name can
coincide with the node id of a table that is present (counterexample
claim8_cex). -/
theorem claim8_absent_root (st : Lineage) (root : String)
    (h : (exportGraph st).tableIds.contains (jsCleanName root) = false) :
    computeImpact st root = ⟨[], [], [], []⟩ := by
  have h2 : ¬((exportGraph st).tableIds.contains (jsCleanName root) = true) :=
    fun hc => Bool.false_ne_true (h.symm.trans hc)
  simp only [computeImpact]
  rw [if_neg h2]

/-- C8 witness: the theorem evaluated on the empty graph with root
sales_summary. -/
theorem claim8_witness :
    computeImpact emptyLineage "sales_summary" = ⟨[], [], [], []⟩ :=
  claim8_absent_root emptyLineage "sales_summary" rfl

/-- C10: in a scope with no table references (empty alias map) and only
unqualified column references, extraction registers exactly the target
columns under the target table: every unqualified reference resolves to the
empty string and is silently dropped, so no flow edge, no join edge and no
source-column registration occurs, and no error is raised (the function is
total). -/
theorem claim10_unqualified_dropped (st : Lineage) (sel : SqlNode) (tgt : String)
    (hT : findTables sel = []) (hJ : findJoins sel = [])
    (hC : ∀ r ∈ findColumns sel, r.1 = "") :
    analyze_select st sel tgt =
      { st with
          tables := List.foldl
            (fun ts e => tablesAddCol ts (if tgt = "" then "Unknown_Target" else tgt) (get_col_name e))
            st.tables (projections sel) } := by
  have hbm : build_alias_map sel = [] := by
    unfold build_alias_map
    rw [hT]
    rfl
  have hreg : registerTables st.tables (findTables sel) = st.tables := by
    rw [hT]
    rfl
  have hflow := mapDataFlow_empty_am (if tgt = "" then "Unknown_Target" else tgt)
    (projections sel) { st with tables := registerTables st.tables (findTables sel) }
    (fun e he r hr => hC r (findColumns_of_projections he hr))
  calc analyze_select st sel tgt
      = mapJoins (mapDataFlow { st with tables := registerTables st.tables (findTables sel) }
          (build_alias_map sel) (projections sel) (if tgt = "" then "Unknown_Target" else tgt))
          (build_alias_map sel) (findJoins sel) := rfl
    _ = mapJoins (mapDataFlow { st with tables := registerTables st.tables (findTables sel) }
          [] (projections sel) (if tgt = "" then "Unknown_Target" else tgt)) [] [] := by
          rw [hbm, hJ]
    _ = mapDataFlow { st with tables := registerTables st.tables (findTables sel) }
          [] (projections sel) (if tgt = "" then "Unknown_Target" else tgt) := rfl
    _ = { st with
            tables := List.foldl
              (fun ts e => tablesAddCol ts (if tgt = "" then "Unknown_Target" else tgt) (get_col_name e))
              st.tables (projections sel) } := by
          rw [hflow, hreg]

/-- C10 witness: the theorem evaluated on SELECT x with target FINAL_OUTPUT:
the target column x is registered, no flow edge and no source column appear. -/
theorem claim10_witness :
    analyze_select emptyLineage c10Sel "FINAL_OUTPUT" =
      { emptyLineage with tables := [("FINAL_OUTPUT", ["x"])] } := by
  have hcols : ∀ r ∈ findColumns c10Sel, r.1 = "" := by
    intro r hr
    rw [show findColumns c10Sel = [(("" : String), ("x" : String))] from rfl,
      List.mem_singleton] at hr
    rw [hr]
  exact (claim10_unqualified_dropped emptyLineage c10Sel "FINAL_OUTPUT" rfl rfl hcols).trans rfl

/-- Updating the alias map preserves existing keys. -/
theorem mem_keys_amSet_of_mem {m : List (String × String)} {x : String}
    (k v : String) (h : x ∈ m.map Prod.fst) : x ∈ (amSet m k v).map Prod.fst := by
  unfold amSet
  split
  · rcases List.mem_map.1 h with ⟨p, hp, hpx⟩
    refine List.mem_map.2 ⟨if p.1 == k then (p.1, v) else p, List.mem_map_of_mem _ hp, ?_⟩
    split
    · exact hpx
    · exact hpx
  · rw [List.map_append]
    exact List.mem_append_left _ h

/-- Updating the alias map makes the assigned key a key. -/
theorem self_mem_keys_amSet (m : List (String × String)) (k v : String) :
    k ∈ (amSet m k v).map Prod.fst := by
  unfold amSet
  split
  · rename_i hany
    rcases List.any_eq_true.1 hany with ⟨p, hp, hpk⟩
    refine List.mem_map.2 ⟨if p.1 == k then (p.1, v) else p, List.mem_map_of_mem _ hp, ?_⟩
    rw [if_pos hpk]
    exact beq_iff_eq.1 hpk
  · rw [List.map_append]
    exact List.mem_append_right _ (List.mem_singleton_self k)

/-- Folding alias-map assignments preserves existing keys. -/
theorem mem_keys_foldl_amStep_of_mem {x : String} :
    ∀ (l : List TableRef) (m : List (String × String)),
      x ∈ m.map Prod.fst → x ∈ (l.foldl amStep m).map Prod.fst := by
  intro l
  induction l with
  | nil => intro m h; exact h
  | cons t ts ih =>
      intro m h
      rw [List.foldl_cons]
      exact ih _ (mem_keys_amSet_of_mem _ _ h)

/-- Every table reference in the folded list contributes its alias key to
the resulting alias map. -/
theorem key_mem_keys_foldl_amStep {t : TableRef} :
    ∀ (l : List TableRef) (m : List (String × String)), t ∈ l →
      tableAliasKey t ∈ (l.foldl amStep m).map Prod.fst := by
  intro l
  induction l with
  | nil => intro m h; exact absurd h (List.not_mem_nil t)
  | cons a as ih =>
      intro m h
      rw [List.foldl_cons]
      cases h with
      | head => exact mem_keys_foldl_amStep_of_mem as _ (self_mem_keys_amSet m _ _)
      | tail _ h2 => exact ih _ h2

/-- C5 amended: the alias map is a fresh local value per analyzed scope, and
a CTE body's own map sees only that body, but the map built for a select
statement's main body is folded over every table reference in the whole
statement — including those occurring only inside CTE bodies, whose alias
keys therefore always appear in the main body's map (counterexample
claim5_cex shows such a leaked key on the spec's CTE scenario). -/
theorem claim5_amended (ctes projs froms joins : List SqlNode) (t : TableRef)
    (ht : t ∈ findTablesL ctes) :
    tableAliasKey t ∈
      (build_alias_map (.selectE ctes projs froms joins)).map Prod.fst := by
  unfold build_alias_map
  have hmem : t ∈ findTables (.selectE ctes projs froms joins) := by
    show t ∈ findTablesL projs ++ findTablesL froms ++ findTablesL joins ++ findTablesL ctes
    exact List.mem_append_right _ ht
  exact key_mem_keys_foldl_amStep _ _ hmem

/-- C5 witness: the amended statement evaluated on the WITH scenario: the CTE
body's table t1 puts the key t1 into the main body's alias map. -/
theorem claim5_witness :
    tableAliasKey ⟨"", "", "t1", ""⟩ ∈
      (build_alias_map
        (.selectE [.cteE "c" c4CteBody] [.column "c" "x"] [.tableE "" "" "c" ""] [])).map
        Prod.fst :=
  claim5_amended [.cteE "c" c4CteBody] [.column "c" "x"] [.tableE "" "" "c" ""] []
    ⟨"", "", "t1", ""⟩ (List.Mem.head _)

/-- C6: join-key extraction emits one edge per equality node whose two
operands are both column references, searching the whole ON subtree: for
the scope SELECT a.id FROM t1 a JOIN t2 b ON a.id = b.id AND p, with p any
additional predicate containing no equality, table or join node, exactly the
one join edge (t1,id,t2,id) is appended, for every starting graph; and for
an equality with a literal operand (ON a.id = 5) no join edge is appended. -/
theorem claim6_join_equalities :
    (∀ (st : Lineage) (p : SqlNode),
        findEqs p = [] → findTables p = [] → findJoins p = [] →
        (analyze_select st (scope6 p) "FINAL_OUTPUT").join_edges =
          st.join_edges ++ [("t1", "id", "t2", "id")]) ∧
    (∀ st : Lineage,
        (analyze_select st scope6lit "FINAL_OUTPUT").join_edges = st.join_edges) := by
  constructor
  · intro st p hE hT hJ
    have hft : findTables (scope6 p) = [⟨"", "", "t1", "a"⟩, ⟨"", "", "t2", "b"⟩] := by
      simp [scope6, findTables, findTablesL, hT]
    have hbm : build_alias_map (scope6 p) = [("a", "t1"), ("b", "t2")] := by
      unfold build_alias_map
      rw [hft]
      rfl
    have hfj : findJoins (scope6 p) =
        [.joinE (.tableE "" "" "t2" "b")
          [.andE (.eqE (.column "a" "id") (.column "b" "id")) p]] := by
      simp [scope6, findJoins, findJoinsL, hJ]
    have hfe : findEqs (SqlNode.andE (.eqE (.column "a" "id") (.column "b" "id")) p) =
        [((.column "a" "id" : SqlNode), (.column "b" "id" : SqlNode))] := by
      simp [findEqs, findEqsL, hE]
    have hstep : ∀ s : Lineage,
        joinEqStep [("a", "t1"), ("b", "t2")] s
          (SqlNode.column "a" "id", SqlNode.column "b" "id") =
        { s with
            tables := tablesAddCol (tablesAddCol s.tables "t1" "id") "t2" "id",
            join_edges := s.join_edges ++ [("t1", "id", "t2", "id")] } := fun s => rfl
    calc (analyze_select st (scope6 p) "FINAL_OUTPUT").join_edges
        = (mapJoins
            (mapDataFlow { st with tables := registerTables st.tables (findTables (scope6 p)) }
              (build_alias_map (scope6 p)) (projections (scope6 p)) "FINAL_OUTPUT")
            (build_alias_map (scope6 p)) (findJoins (scope6 p))).join_edges := rfl
      _ = (mapJoins
            (mapDataFlow { st with tables := registerTables st.tables (findTables (scope6 p)) }
              [("a", "t1"), ("b", "t2")] (projections (scope6 p)) "FINAL_OUTPUT")
            [("a", "t1"), ("b", "t2")]
            [.joinE (.tableE "" "" "t2" "b")
              [.andE (.eqE (.column "a" "id") (.column "b" "id")) p]]).join_edges := by
            rw [hbm, hfj]
      _ = (List.foldl (joinEqStep [("a", "t1"), ("b", "t2")])
            (mapDataFlow { st with tables := registerTables st.tables (findTables (scope6 p)) }
              [("a", "t1"), ("b", "t2")] (projections (scope6 p)) "FINAL_OUTPUT")
            (findEqs (SqlNode.andE (.eqE (.column "a" "id") (.column "b" "id")) p))).join_edges := rfl
      _ = (joinEqStep [("a", "t1"), ("b", "t2")]
            (mapDataFlow { st with tables := registerTables st.tables (findTables (scope6 p)) }
              [("a", "t1"), ("b", "t2")] (projections (scope6 p)) "FINAL_OUTPUT")
            (SqlNode.column "a" "id", SqlNode.column "b" "id")).join_edges := by
            rw [hfe]
            rfl
      _ = (mapDataFlow { st with tables := registerTables st.tables (findTables (scope6 p)) }
            [("a", "t1"), ("b", "t2")] (projections (scope6 p)) "FINAL_OUTPUT").join_edges ++
          [("t1", "id", "t2", "id")] := by
            rw [hstep]
      _ = st.join_edges ++ [("t1", "id", "t2", "id")] := by
            rw [mapDataFlow_join_edges]
  · intro st
    have hstep : ∀ s : Lineage,
        joinEqStep [("a", "t1"), ("b", "t2")] s
          (SqlNode.column "a" "id", SqlNode.litE "5") = s := fun s => rfl
    calc (analyze_select st scope6lit "FINAL_OUTPUT").join_edges
        = (joinEqStep [("a", "t1"), ("b", "t2")]
            (mapDataFlow { st with tables := registerTables st.tables (findTables scope6lit) }
              [("a", "t1"), ("b", "t2")] (projections scope6lit) "FINAL_OUTPUT")
            (SqlNode.column "a" "id", SqlNode.litE "5")).join_edges := rfl
      _ = (mapDataFlow { st with tables := registerTables st.tables (findTables scope6lit) }
            [("a", "t1"), ("b", "t2")] (projections scope6lit) "FINAL_OUTPUT").join_edges := by
            rw [hstep]
      _ = st.join_edges := by rw [mapDataFlow_join_edges]

/-- C6 witness: the theorem evaluated with the non-equality predicate
a.x > 5 and the empty starting graph: exactly one join edge results. -/
theorem claim6_witness :
    (analyze_select emptyLineage (scope6 (.gtE (.column "a" "x") (.litE "5")))
        "FINAL_OUTPUT").join_edges = [("t1", "id", "t2", "id")] ∧
    (analyze_select emptyLineage scope6lit "FINAL_OUTPUT").join_edges = [] := by
  constructor
  · rw [claim6_join_equalities.1 emptyLineage (.gtE (.column "a" "x") (.litE "5")) rfl rfl rfl]
    rfl
  · exact (claim6_join_equalities.2 emptyLineage).trans rfl

/-- For a non-empty name, the exporter's cleaning and the page's inline
cleaning agree. -/
theorem clean_id_eq_jsCleanName {n : String} (h : n ≠ "") :
    clean_id n = jsCleanName n := by
  unfold clean_id jsCleanName
  rw [if_neg h]

/-- A column recorded in the catalog comes from some catalog entry. -/
theorem mem_tables_of_tablesGet {ts : List (String × List String)} {k c : String}
    (h : c ∈ tablesGet ts k) : ∃ p ∈ ts, p.1 = k ∧ c ∈ p.2 := by
  unfold tablesGet at h
  cases hf : ts.find? (fun p => p.1 == k) with
  | none => rw [hf] at h; exact absurd h (List.not_mem_nil c)
  | some p =>
      rw [hf] at h
      have hpk := List.find?_some hf
      exact ⟨p, List.mem_of_find?_eq_some hf, beq_iff_eq.1 hpk, h⟩

/-- Every catalog entry exports its table node id. -/
theorem tableId_mem {st : Lineage} {p : String × List String} (hp : p ∈ st.tables) :
    clean_id p.1 ∈ (exportGraph st).tableIds :=
  List.mem_map_of_mem _ hp

/-- Every column of a catalog entry exports its column node with the owning
table as parent. -/
theorem colNode_mem {st : Lineage} {p : String × List String} (hp : p ∈ st.tables)
    {c : String} (hc : c ∈ p.2) :
    (colId p.1 c, clean_id p.1) ∈ (exportGraph st).colNodes := by
  apply List.mem_flatten.2
  refine ⟨p.2.map (fun c2 => (colId p.1 c2, clean_id p.1)), ?_, ?_⟩
  · exact List.mem_map_of_mem _ hp
  · exact List.mem_map_of_mem _ hc

/-- Every recorded join edge exports a directed edge pair between the two
column node ids. -/
theorem joinPair_mem {st : Lineage} {A cA B cB : String}
    (hj : (A, cA, B, cB) ∈ st.join_edges) :
    (colId A cA, colId B cB) ∈ (exportGraph st).flowPairs ++ (exportGraph st).joinPairs :=
  List.mem_append_right _ (List.mem_map_of_mem _ hj)

/-- The expansion step of the downstream traversal keeps the current nodes. -/
theorem mem_succStep_of_mem {x : String} {s : List String}
    (es : List (String × String)) (h : x ∈ s) : x ∈ succStep es s :=
  List.mem_append_left _ h

/-- The expansion step of the upstream traversal keeps the current nodes. -/
theorem mem_predStep_of_mem {x : String} {s : List String}
    (es : List (String × String)) (h : x ∈ s) : x ∈ predStep es s :=
  List.mem_append_left _ h

/-- Iterating the downstream step keeps the current nodes. -/
theorem mem_iterate_succStep {x : String} (es : List (String × String)) :
    ∀ (n : Nat) (s : List String), x ∈ s → x ∈ Nat.iterate (succStep es) n s := by
  intro n
  induction n with
  | zero => intro s h; exact h
  | succ k ih =>
      intro s h
      show x ∈ Nat.iterate (succStep es) k (succStep es s)
      exact ih _ (mem_succStep_of_mem es h)

/-- Iterating the upstream step keeps the current nodes. -/
theorem mem_iterate_predStep {x : String} (es : List (String × String)) :
    ∀ (n : Nat) (s : List String), x ∈ s → x ∈ Nat.iterate (predStep es) n s := by
  intro n
  induction n with
  | zero => intro s h; exact h
  | succ k ih =>
      intro s h
      show x ∈ Nat.iterate (predStep es) k (predStep es s)
      exact ih _ (mem_predStep_of_mem es h)

/-- One downstream step crosses any edge leaving the current node set. -/
theorem mem_succStep_of_edge {u v : String} {es : List (String × String)}
    {s : List String} (he : (u, v) ∈ es) (hu : u ∈ s) : v ∈ succStep es s := by
  apply List.mem_append_right
  refine List.mem_map.2 ⟨(u, v), List.mem_filter.2 ⟨he, ?_⟩, rfl⟩
  exact List.elem_eq_true_of_mem hu

/-- One upstream step crosses any edge entering the current node set. -/
theorem mem_predStep_of_edge {u v : String} {es : List (String × String)}
    {s : List String} (he : (u, v) ∈ es) (hv : v ∈ s) : u ∈ predStep es s := by
  apply List.mem_append_right
  refine List.mem_map.2 ⟨(u, v), List.mem_filter.2 ⟨he, ?_⟩, rfl⟩
  exact List.elem_eq_true_of_mem hv

/-- The downstream closure of a set containing an edge's source contains the
edge's target. -/
theorem mem_succClosure_of_edge {u v : String} {es : List (String × String)}
    {s : List String} (he : (u, v) ∈ es) (hu : u ∈ s) : v ∈ succClosure es s := by
  show v ∈ Nat.iterate (succStep es) es.length (succStep es s)
  exact mem_iterate_succStep es _ _ (mem_succStep_of_edge he hu)

/-- The upstream closure of a set containing an edge's target contains the
edge's source. -/
theorem mem_predClosure_of_edge {u v : String} {es : List (String × String)}
    {s : List String} (he : (u, v) ∈ es) (hv : v ∈ s) : u ∈ predClosure es s := by
  show u ∈ Nat.iterate (predStep es) es.length (predStep es s)
  exact mem_iterate_predStep es _ _ (mem_predStep_of_edge he hv)

/-- C7 amended: join edges are traversed directionally, exactly like flow
edges: for every recorded join edge (A,cA,B,cB) whose endpoint columns are
recorded under their tables, the column node of (B,cB) appears in the
downstream closure computed from table A, and the column node of (A,cA)
appears in the upstream closure computed from table B (the counterexample
claim7_cex shows the two opposite directions fail). -/
theorem claim7_amended (st : Lineage) (A cA B cB : String)
    (hA0 : A ≠ "") (hB0 : B ≠ "")
    (hj : (A, cA, B, cB) ∈ st.join_edges)
    (hA : cA ∈ tablesGet st.tables A) (hB : cB ∈ tablesGet st.tables B) :
    colId B cB ∈ (computeImpact st A).downCols ∧
    colId A cA ∈ (computeImpact st B).upCols := by
  obtain ⟨p, hpmem, hpk, hpc⟩ := mem_tables_of_tablesGet hA
  obtain ⟨q, hqmem, hqk, hqc⟩ := mem_tables_of_tablesGet hB
  constructor
  · have hguard : (exportGraph st).tableIds.contains (jsCleanName A) = true := by
      rw [← clean_id_eq_jsCleanName hA0, ← hpk]
      exact List.elem_eq_true_of_mem (tableId_mem hpmem)
    have hstart : colId A cA ∈
        ((( exportGraph st).colNodes.filter
            (fun p2 => p2.2 == jsCleanName A)).map (fun p2 => p2.1)) := by
      refine List.mem_map.2 ⟨(colId A cA, clean_id A), List.mem_filter.2 ⟨?_, ?_⟩, rfl⟩
      · have h3 := colNode_mem hpmem hpc
        rw [hpk] at h3
        exact h3
      · rw [clean_id_eq_jsCleanName hA0]
        exact beq_self_eq_true _
    simp only [computeImpact]
    rw [if_pos hguard]
    exact mem_succClosure_of_edge (joinPair_mem hj) hstart
  · have hguard : (exportGraph st).tableIds.contains (jsCleanName B) = true := by
      rw [← clean_id_eq_jsCleanName hB0, ← hqk]
      exact List.elem_eq_true_of_mem (tableId_mem hqmem)
    have hstart : colId B cB ∈
        ((( exportGraph st).colNodes.filter
            (fun p2 => p2.2 == jsCleanName B)).map (fun p2 => p2.1)) := by
      refine List.mem_map.2 ⟨(colId B cB, clean_id B), List.mem_filter.2 ⟨?_, ?_⟩, rfl⟩
      · have h3 := colNode_mem hqmem hqc
        rw [hqk] at h3
        exact h3
      · rw [clean_id_eq_jsCleanName hB0]
        exact beq_self_eq_true _
    simp only [computeImpact]
    rw [if_pos hguard]
    exact mem_predClosure_of_edge (joinPair_mem hj) hstart

/-- C7 witness: the amended statement evaluated on the single-join graph:
b_y is downstream of table a and a_x is upstream of table b. -/
theorem claim7_witness :
    colId "b" "y" ∈ (computeImpact stJoin "a").downCols ∧
    colId "a" "x" ∈ (computeImpact stJoin "b").upCols :=
  claim7_amended stJoin "a" "x" "b" "y"
    (fun h => List.noConfusion (congrArg String.data h))
    (fun h => List.noConfusion (congrArg String.data h))
    (List.Mem.head _) (List.Mem.head _) (List.Mem.head _)

end Visage
